import Mathlib

/-!
Verification of the Climate Emoji data pipeline (`climate_emoji.py`).

The script's pure core is shallowly embedded here:
* `get_earth_mood` — the mood thresholds (source lines 67–71);
* `calc_trend` — the 10-year trend via a degree-1 least-squares fit
  (source lines 77–82, `np.polyfit(x, y, 1)[0] * 12` on the tail);
* `load_nasa_data` — the melt / month-filter / date / sort reshape
  (source lines 45–60);
* `rollingMean` — `df["Anomaly"].rolling(120, min_periods=30).mean()`
  (source line 89);
* `trendSummary` and `applyFilter` — the summary metrics computed from the
  full frame (lines 92–95) and the date/mood filtered view (lines 105–112).

Anomaly values are modelled as rationals; float rounding is out of scope.
`np.polyfit` of degree one is embedded by its ordinary-least-squares
closed form, and we prove that closed form actually minimises the sum of
squared residuals, so nothing about the fit is assumed.
-/

/-- Mood thresholds, exactly the cascade of source lines 67–71:
`a >= 1.5 → "Hot 🔥"`, `a >= 0.5 → "Warm 🌱"`, `a >= 0 → "Stable 🙂"`,
otherwise `"Cold ❄️"`. -/
def get_earth_mood (a : ℚ) : String :=
  if a ≥ 1.5 then "Hot 🔥"
  else if a ≥ 0.5 then "Warm 🌱"
  else if a ≥ 0 then "Stable 🙂"
  else "Cold ❄️"

/-- The four mood labels the dashboard uses (sidebar list, line 110). -/
def moodLabels : List String := ["Hot 🔥", "Warm 🌱", "Stable 🙂", "Cold ❄️"]

/-- Rank of a mood label in the order Cold ≤ Stable ≤ Warm ≤ Hot. -/
def moodRank (m : String) : ℕ :=
  if m = "Cold ❄️" then 0
  else if m = "Stable 🙂" then 1
  else if m = "Warm 🌱" then 2
  else if m = "Hot 🔥" then 3
  else 4

/-- The last `n` entries of a list: `pandas.DataFrame.tail(n)` on a column. -/
def lastN (n : ℕ) (l : List ℚ) : List ℚ := l.drop (l.length - n)

/-- Finite sum of the first `n` values of `f`. -/
def S (n : ℕ) (f : ℕ → ℚ) : ℚ := ∑ i ∈ Finset.range n, f i

/-- Numerator of the degree-1 least-squares slope over points
`(x i, y i)`, `i < n`. -/
def fitNum (n : ℕ) (x y : ℕ → ℚ) : ℚ :=
  (n : ℚ) * S n (fun i => x i * y i) - S n x * S n y

/-- Denominator of the degree-1 least-squares slope. -/
def fitDen (n : ℕ) (x : ℕ → ℚ) : ℚ :=
  (n : ℚ) * S n (fun i => x i * x i) - (S n x) ^ 2

/-- Slope of the degree-1 least-squares fit (closed form of
`np.polyfit(x, y, 1)[0]`). -/
def fitSlope (n : ℕ) (x y : ℕ → ℚ) : ℚ := fitNum n x y / fitDen n x

/-- Intercept of the degree-1 least-squares fit
(`np.polyfit(x, y, 1)[1]`). -/
def fitIcept (n : ℕ) (x y : ℕ → ℚ) : ℚ :=
  (S n y - fitSlope n x y * S n x) / (n : ℚ)

/-- `np.polyfit(xs, ys, 1)` as (slope, intercept). -/
def polyfit1 (xs ys : List ℚ) : ℚ × ℚ :=
  (fitSlope xs.length (fun i => xs.getD i 0) (fun i => ys.getD i 0),
   fitIcept xs.length (fun i => xs.getD i 0) (fun i => ys.getD i 0))

/-- `calc_trend` (source lines 77–82): take the last `years*12` anomalies,
return 0 when fewer than 2 remain, otherwise
`np.polyfit(np.arange(len(recent)), recent, 1)[0] * 12`. -/
def calc_trend (data : List ℚ) (years : ℕ) : ℚ :=
  let recent := lastN (years * 12) data
  if recent.length < 2 then 0
  else (polyfit1 (List.map (fun i : ℕ => (i : ℚ)) (List.range recent.length)) recent).1 * 12

/-- Sum of squared residuals of the line `a + b * x` on the points
`(x i, y i)`, `i < n`. -/
def rss (n : ℕ) (x y : ℕ → ℚ) (a b : ℚ) : ℚ :=
  ∑ i ∈ Finset.range n, (y i - (a + b * x i)) ^ 2

/-- One long-format observation: year, month (1–12 once reshaped), anomaly,
and the stored date column — the first day of the (year, month), as assigned
on source lines 55–58. -/
structure Obs where
  year : Int
  month : Int
  anomaly : ℚ
  date : Int × Int × Int
deriving DecidableEq

/-- Chronological key of a (year, month, day) date. It is order-isomorphic
to calendar order on the dates this pipeline builds (month 1–12, day 1). -/
def dateKey (d : Int × Int × Int) : Int := (d.1 * 12 + d.2.1) * 32 + d.2.2

/-- The `month_map` dictionary of source lines 52–53, as a partial lookup. -/
def monthMap (s : String) : Option Int :=
  match s with
  | "Jan" => some 1
  | "Feb" => some 2
  | "Mar" => some 3
  | "Apr" => some 4
  | "May" => some 5
  | "Jun" => some 6
  | "Jul" => some 7
  | "Aug" => some 8
  | "Sep" => some 9
  | "Oct" => some 10
  | "Nov" => some 11
  | "Dec" => some 12
  | _ => none

/-- Inverse direction of `month_map`: the canonical name of a month
number (auxiliary to reason about injectivity). -/
def monthName (m : Int) : String :=
  if m = 1 then "Jan"
  else if m = 2 then "Feb"
  else if m = 3 then "Mar"
  else if m = 4 then "Apr"
  else if m = 5 then "May"
  else if m = 6 then "Jun"
  else if m = 7 then "Jul"
  else if m = 8 then "Aug"
  else if m = 9 then "Sep"
  else if m = 10 then "Oct"
  else if m = 11 then "Nov"
  else if m = 12 then "Dec"
  else ""

/-- A wide row of the NASA table: the year and the optional numeric value in
each non-Year column (the asterisk sentinel and non-numeric cells have
already been coerced to `none`, source lines 46–49). -/
structure RawRow where
  year : Int
  cells : String → Option ℚ

/-- The wide table: the non-Year column names, in order, and the rows. -/
structure RawTable where
  cols : List String
  rows : List RawRow

/-- `df.melt(id_vars=["Year"], ...).dropna()` followed by the
`isin(month_map.keys())` restriction and the date assignment (source lines
51–58): one record per non-missing cell of a canonical month column, with
date = first day of the (year, month). pandas melt stacks column by column,
rows inside columns. -/
def recordsOf (t : RawTable) : List Obs :=
  t.cols.flatMap fun c =>
    t.rows.filterMap fun r =>
      match r.cells c, monthMap c with
      | some v, some m => some ⟨r.year, m, v, (r.year, m, 1)⟩
      | _, _ => none

/-- The non-missing (year, month, value) cells of the canonical month
columns, in melt order: the grouped view of the table used to state the
round-trip property. -/
def tableTriples (t : RawTable) : List (Int × Int × ℚ) :=
  t.cols.flatMap fun c =>
    t.rows.filterMap fun r =>
      match r.cells c, monthMap c with
      | some v, some m => some (r.year, m, v)
      | _, _ => none

/-- Date order on observations. -/
def obsLE (a b : Obs) : Prop := dateKey a.date ≤ dateKey b.date

instance : DecidableRel obsLE :=
  fun a b => inferInstanceAs (Decidable (dateKey a.date ≤ dateKey b.date))

instance : IsTotal Obs obsLE := ⟨fun _ _ => Int.le_total _ _⟩

instance : IsTrans Obs obsLE := ⟨fun _ _ _ h₁ h₂ => le_trans h₁ h₂⟩

/-- The reshape `load_nasa_data` performs on an already-parsed table
(source lines 51–59): melt, keep canonical month columns, derive the date,
sort ascending by date. pandas `sort_values` is an arbitrary comparison
sort; it is modelled by a sort producing a date-ordered permutation. -/
def load_nasa_data (t : RawTable) : List Obs :=
  List.insertionSort obsLE (recordsOf t)

/-- `series.rolling(window, min_periods).mean()` on a column with no
missing values (source line 89): position i averages the last `window`
entries up to and including i, and is absent until `minp` entries are
available. -/
def rollingMean (window minp : ℕ) (xs : List ℚ) : List (Option ℚ) :=
  List.map
    (fun i =>
      if minp ≤ ((xs.take (i + 1)).drop (i + 1 - window)).length
      then some (((xs.take (i + 1)).drop (i + 1 - window)).sum /
                 (((xs.take (i + 1)).drop (i + 1 - window)).length : ℚ))
      else none)
    (List.range xs.length)

/-- The sidebar filter state (source lines 102–111). -/
structure FilterState where
  start : Int × Int × Int
  stop : Int × Int × Int
  moods : List String

/-- The two filters of source lines 105–112: the date-range mask
`(df["Date"] >= start) & (df["Date"] <= end)`, then the mood filter
`filtered["Mood"].isin(mood_filter)` (the Mood column is
`get_earth_mood` of the anomaly, line 87). -/
def applyFilter (df : List Obs) (fs : FilterState) : List Obs :=
  (df.filter fun o =>
      decide (dateKey fs.start ≤ dateKey o.date) &&
      decide (dateKey o.date ≤ dateKey fs.stop)).filter
    fun o => decide (get_earth_mood o.anomaly ∈ fs.moods)

/-- Pearson correlation (source line 93, `df["Year"].corr(df["Anomaly"])`),
real-valued since it divides by square roots. -/
noncomputable def pearson (xs ys : List ℚ) : ℝ :=
  ((fitNum xs.length (fun i => xs.getD i 0) (fun i => ys.getD i 0) : ℚ) : ℝ) /
    (Real.sqrt ((fitDen xs.length (fun i => xs.getD i 0) : ℚ) : ℝ) *
     Real.sqrt ((fitDen xs.length (fun i => ys.getD i 0) : ℚ) : ℝ))

/-- `np.polyval(np.polyfit(df["Year"], df["Anomaly"], 1), target)`
(source lines 94–95). -/
def linear_prediction (df : List Obs) (target : ℚ) : ℚ :=
  (polyfit1 (List.map (fun o : Obs => (o.year : ℚ)) df)
      (List.map (fun o : Obs => o.anomaly) df)).1 * target +
  (polyfit1 (List.map (fun o : Obs => (o.year : ℚ)) df)
      (List.map (fun o : Obs => o.anomaly) df)).2

/-- The four summary metrics of the dashboard. -/
structure TrendSummary where
  slope_per_year : ℚ
  correlation : ℝ
  prediction_2030 : ℚ
  prediction_2050 : ℚ

/-- Source lines 92–95: ten-year trend, year/anomaly correlation, and the
two point predictions, all computed from the full frame. -/
noncomputable def trendSummary (df : List Obs) : TrendSummary :=
  { slope_per_year := calc_trend (List.map (fun o : Obs => o.anomaly) df) 10
    correlation := pearson (List.map (fun o : Obs => (o.year : ℚ)) df)
      (List.map (fun o : Obs => o.anomaly) df)
    prediction_2030 := linear_prediction df 2030
    prediction_2050 := linear_prediction df 2050 }

/-- One render pass: the summary metrics from the full frame (lines 91–95)
and the filtered view from the sidebar state (lines 105–112). -/
noncomputable def renderPass (df : List Obs) (fs : FilterState) :
    TrendSummary × List Obs :=
  (trendSummary df, applyFilter df fs)

/-- C1: `get_earth_mood` always returns one of the four labels, the four
threshold bands partition the line (each label is returned exactly on its
band, bands exclusive and exhaustive by the iff characterisations), and the
boundaries are inclusive: mood 1.6 = Hot, mood 0.5 = Warm, mood 0 = Stable,
mood (-0.01) = Cold. -/
theorem mood_partition :
    (∀ a : ℚ,
      get_earth_mood a ∈ moodLabels ∧
      (get_earth_mood a = "Hot 🔥" ↔ 1.5 ≤ a) ∧
      (get_earth_mood a = "Warm 🌱" ↔ 0.5 ≤ a ∧ a < 1.5) ∧
      (get_earth_mood a = "Stable 🙂" ↔ 0 ≤ a ∧ a < 0.5) ∧
      (get_earth_mood a = "Cold ❄️" ↔ a < 0)) ∧
    get_earth_mood 1.6 = "Hot 🔥" ∧
    get_earth_mood 0.5 = "Warm 🌱" ∧
    get_earth_mood 0 = "Stable 🙂" ∧
    get_earth_mood (-0.01) = "Cold ❄️" := by
  refine ⟨fun a => ?_, by norm_num [get_earth_mood], by norm_num [get_earth_mood],
    by norm_num [get_earth_mood], by norm_num [get_earth_mood]⟩
  unfold get_earth_mood
  split_ifs with h1 h2 h3 <;>
    refine ⟨by simp [moodLabels], ?_, ?_, ?_, ?_⟩ <;> simp <;>
    first
      | (push_neg at *; intros; linarith)
      | (push_neg at *; constructor <;> linarith)

/-- The rank of the mood is given by the same threshold cascade. -/
theorem moodRank_get_earth_mood (x : ℚ) :
    moodRank (get_earth_mood x) =
      if x ≥ 1.5 then 3 else if x ≥ 0.5 then 2 else if x ≥ 0 then 1 else 0 := by
  unfold get_earth_mood
  split_ifs <;> rfl

/-- C9: the mood is monotone non-decreasing in the anomaly, under the label
order Cold ≤ Stable ≤ Warm ≤ Hot. -/
theorem mood_monotone (a b : ℚ) (hab : a ≤ b) :
    moodRank (get_earth_mood a) ≤ moodRank (get_earth_mood b) := by
  rw [moodRank_get_earth_mood, moodRank_get_earth_mood]
  split_ifs <;> first | (exfalso; linarith) | norm_num

/-- Witness for C9 at a = 0, b = 1. -/
theorem mood_monotone_witness :
    moodRank (get_earth_mood 0) ≤ moodRank (get_earth_mood 1) :=
  mood_monotone 0 1 (by norm_num)

/-- Sums over `range n` only depend on values below `n`. -/
theorem S_congr (n : ℕ) (f g : ℕ → ℚ) (h : ∀ i ∈ Finset.range n, f i = g i) :
    S n f = S n g :=
  Finset.sum_congr rfl h

/-- Sum of residuals against an arbitrary line, in closed form. -/
theorem S_resid (n : ℕ) (x y : ℕ → ℚ) (A B : ℚ) :
    S n (fun i => y i - (A + B * x i)) = S n y - ((n : ℚ) * A + B * S n x) := by
  unfold S
  rw [Finset.sum_sub_distrib, Finset.sum_add_distrib, ← Finset.mul_sum]
  simp [Finset.sum_const, Finset.card_range, nsmul_eq_mul]

/-- Sum of x-weighted residuals against an arbitrary line, in closed form. -/
theorem S_xresid (n : ℕ) (x y : ℕ → ℚ) (A B : ℚ) :
    S n (fun i => x i * (y i - (A + B * x i))) =
      S n (fun i => x i * y i) - (A * S n x + B * S n (fun i => x i * x i)) := by
  unfold S
  rw [Finset.sum_congr rfl
    (fun i _ => by ring :
      ∀ i ∈ Finset.range n,
        x i * (y i - (A + B * x i)) = x i * y i - (A * x i + B * (x i * x i)))]
  rw [Finset.sum_sub_distrib, Finset.sum_add_distrib, ← Finset.mul_sum, ← Finset.mul_sum]

/-- First normal equation: the fitted residuals sum to zero. -/
theorem resid_zero (n : ℕ) (x y : ℕ → ℚ) (hn : (n : ℚ) ≠ 0) :
    S n (fun i => y i - (fitIcept n x y + fitSlope n x y * x i)) = 0 := by
  rw [S_resid]
  unfold fitIcept
  field_simp

/-- Second normal equation: the x-weighted fitted residuals sum to zero. -/
theorem xresid_zero (n : ℕ) (x y : ℕ → ℚ) (hn : (n : ℚ) ≠ 0)
    (hd : fitDen n x ≠ 0) :
    S n (fun i => x i * (y i - (fitIcept n x y + fitSlope n x y * x i))) = 0 := by
  rw [S_xresid]
  unfold fitIcept fitSlope fitNum
  unfold fitDen at hd ⊢
  field_simp
  ring

/-- The closed-form fit minimises the sum of squared residuals: it is the
ordinary-least-squares degree-1 fit. -/
theorem rss_min (n : ℕ) (x y : ℕ → ℚ) (hn : (n : ℚ) ≠ 0)
    (hd : fitDen n x ≠ 0) (a b : ℚ) :
    rss n x y (fitIcept n x y) (fitSlope n x y) ≤ rss n x y a b := by
  set A := fitIcept n x y with hA
  set B := fitSlope n x y with hB
  have h1 : S n (fun i => y i - (A + B * x i)) = 0 := resid_zero n x y hn
  have h2 : S n (fun i => x i * (y i - (A + B * x i))) = 0 := xresid_zero n x y hn hd
  have expand : rss n x y a b =
      rss n x y A B
      + (2 * (A - a)) * S n (fun i => y i - (A + B * x i))
      + (2 * (B - b)) * S n (fun i => x i * (y i - (A + B * x i)))
      + S n (fun i => ((A - a) + (B - b) * x i) ^ 2) := by
    unfold rss S
    rw [Finset.mul_sum, Finset.mul_sum, ← Finset.sum_add_distrib,
      ← Finset.sum_add_distrib, ← Finset.sum_add_distrib]
    exact Finset.sum_congr rfl fun i _ => by ring
  have hnn : 0 ≤ S n (fun i => ((A - a) + (B - b) * x i) ^ 2) :=
    Finset.sum_nonneg fun i _ => sq_nonneg _
  rw [expand, h1, h2]
  linarith

/-- Gauss sum over `range n`, rational form. -/
theorem S_range_id (n : ℕ) : S n (fun i => (i : ℚ)) = n * (n - 1) / 2 := by
  induction n with
  | zero => simp [S]
  | succ m ih =>
    have h : S (m + 1) (fun i => (i : ℚ)) = S m (fun i => (i : ℚ)) + m := by
      unfold S; rw [Finset.sum_range_succ]
    rw [h, ih]
    push_cast
    ring

/-- Sum of squares over `range n`, rational form. -/
theorem S_range_sq (n : ℕ) :
    S n (fun i => (i : ℚ) * (i : ℚ)) = n * (n - 1) * (2 * n - 1) / 6 := by
  induction n with
  | zero => simp [S]
  | succ m ih =>
    have h : S (m + 1) (fun i => (i : ℚ) * (i : ℚ))
        = S m (fun i => (i : ℚ) * (i : ℚ)) + m * m := by
      unfold S; rw [Finset.sum_range_succ]
    rw [h, ih]
    push_cast
    ring

/-- With x = 0,…,n−1 and n ≥ 2, the fit denominator is nonzero. -/
theorem fitDen_range (n : ℕ) (hn : 2 ≤ n) : fitDen n (fun i => (i : ℚ)) ≠ 0 := by
  have h : fitDen n (fun i => (i : ℚ)) = n ^ 2 * (n - 1) * (n + 1) / 12 := by
    unfold fitDen
    rw [S_range_sq, S_range_id]
    ring
  rw [h]
  have h2 : (2 : ℚ) ≤ n := by exact_mod_cast hn
  have a1 : (0 : ℚ) < n - 1 := by linarith
  have a2 : (0 : ℚ) < n + 1 := by linarith
  have a3 : (0 : ℚ) < n := by linarith
  exact ne_of_gt (div_pos (mul_pos (mul_pos (pow_pos a3 2) a1) a2) (by norm_num))

/-- Reading index i of the rational 0,…,n−1 list gives i. -/
theorem getD_range_cast (n i : ℕ) (hi : i < n) :
    (List.map (fun j : ℕ => (j : ℚ)) (List.range n)).getD i 0 = (i : ℚ) := by
  rw [List.getD_eq_getElem _ _ (by rw [List.length_map, List.length_range]; exact hi)]
  simp only [List.getElem_map, List.getElem_range]

/-- The fit slope only depends on the x values below n. -/
theorem fitSlope_congr_x (n : ℕ) (x x' y : ℕ → ℚ)
    (hx : ∀ i ∈ Finset.range n, x i = x' i) :
    fitSlope n x y = fitSlope n x' y := by
  unfold fitSlope fitNum fitDen
  rw [S_congr n x x' hx,
    S_congr n (fun i => x i * y i) (fun i => x' i * y i)
      (fun i hi => by
        show x i * y i = x' i * y i
        rw [hx i hi]),
    S_congr n (fun i => x i * x i) (fun i => x' i * x' i)
      (fun i hi => by
        show x i * x i = x' i * x' i
        rw [hx i hi])]

/-- C2: `calc_trend` takes the last `years*12` records (all of them if fewer
exist), returns 0 when fewer than 2 points remain, and otherwise returns 12
times the slope of the degree-1 ordinary-least-squares fit of the anomalies
against the 0-based index — least-squares in the true sense: that slope and
its intercept minimise the sum of squared residuals. -/
theorem calc_trend_ols (data : List ℚ) (years : ℕ) :
    lastN (years * 12) data <:+ data ∧
    (lastN (years * 12) data).length = min (years * 12) data.length ∧
    ((lastN (years * 12) data).length < 2 → calc_trend data years = 0) ∧
    (2 ≤ (lastN (years * 12) data).length →
      calc_trend data years =
        12 * fitSlope (lastN (years * 12) data).length (fun i => (i : ℚ))
          (fun i => (lastN (years * 12) data).getD i 0) ∧
      ∀ a b : ℚ,
        rss (lastN (years * 12) data).length (fun i => (i : ℚ))
            (fun i => (lastN (years * 12) data).getD i 0)
            (fitIcept (lastN (years * 12) data).length (fun i => (i : ℚ))
              (fun i => (lastN (years * 12) data).getD i 0))
            (fitSlope (lastN (years * 12) data).length (fun i => (i : ℚ))
              (fun i => (lastN (years * 12) data).getD i 0))
          ≤ rss (lastN (years * 12) data).length (fun i => (i : ℚ))
              (fun i => (lastN (years * 12) data).getD i 0) a b) := by
  refine ⟨List.drop_suffix _ _, by simp [lastN]; omega, ?_, ?_⟩
  · intro h
    unfold calc_trend
    rw [if_pos h]
  · intro h
    have hne : ¬ (lastN (years * 12) data).length < 2 := by omega
    constructor
    · unfold calc_trend polyfit1
      rw [if_neg hne]
      simp only [List.length_map, List.length_range]
      rw [fitSlope_congr_x (lastN (years * 12) data).length _ (fun i => (i : ℚ))
        (fun i => (lastN (years * 12) data).getD i 0)
        (fun i hi => getD_range_cast _ i (Finset.mem_range.mp hi))]
      ring
    · intro a b
      exact rss_min (lastN (years * 12) data).length _ _
        (Nat.cast_ne_zero.mpr (by omega)) (fitDen_range _ h) a b

/-- Witness for C2 on the concrete data [0, 1, 2] with years = 1. -/
theorem calc_trend_ols_witness :
    calc_trend [0, 1, 2] 1 =
      12 * fitSlope (lastN (1 * 12) [0, 1, 2]).length (fun i => (i : ℚ))
        (fun i => (lastN (1 * 12) [0, 1, 2]).getD i 0) ∧
    rss (lastN (1 * 12) [0, 1, 2]).length (fun i => (i : ℚ))
        (fun i => (lastN (1 * 12) [0, 1, 2]).getD i 0)
        (fitIcept (lastN (1 * 12) [0, 1, 2]).length (fun i => (i : ℚ))
          (fun i => (lastN (1 * 12) [0, 1, 2]).getD i 0))
        (fitSlope (lastN (1 * 12) [0, 1, 2]).length (fun i => (i : ℚ))
          (fun i => (lastN (1 * 12) [0, 1, 2]).getD i 0))
      ≤ rss (lastN (1 * 12) [0, 1, 2]).length (fun i => (i : ℚ))
          (fun i => (lastN (1 * 12) [0, 1, 2]).getD i 0) 0 0 := by
  have h := (calc_trend_ols [0, 1, 2] 1).2.2.2 (by decide)
  exact ⟨h.1, h.2 0 0⟩

/-- C5: the summary metrics are a function of the full dataset only — two
render passes over the same data with different filter states produce
identical TrendSummary values (slope, correlation and both predictions). -/
theorem trendSummary_filter_independent (df : List Obs) (fs₁ fs₂ : FilterState) :
    (renderPass df fs₁).1 = (renderPass df fs₂).1 := rfl

/-- C6: on an input shorter than `min_periods` = 30, the rolling mean with
window 120 is absent at every position, one output per input position. -/
theorem rollingMean_short (xs : List ℚ) (h : xs.length < 30) :
    rollingMean 120 30 xs = List.replicate xs.length none := by
  refine List.eq_replicate_iff.mpr ⟨by simp [rollingMean], fun v hv => ?_⟩
  unfold rollingMean at hv
  rw [List.mem_map] at hv
  obtain ⟨i, hi, hvi⟩ := hv
  rw [List.mem_range] at hi
  have h1 : ((xs.take (i + 1)).drop (i + 1 - 120)).length ≤ xs.length := by
    rw [List.length_drop, List.length_take]
    omega
  rw [← hvi, if_neg (by omega)]

/-- Witness for C6 on the 3-element input [1, 2, 3]. -/
theorem rollingMean_short_witness :
    rollingMean 120 30 [1, 2, 3] = List.replicate ([1, 2, 3] : List ℚ).length none :=
  rollingMean_short [1, 2, 3] (by decide)

/-- C8: an empty mood selection empties the filtered view whatever the date
range is, and an empty date range (end before start) empties it whatever the
mood selection is — no error in either case. -/
theorem applyFilter_degenerate (df : List Obs) (fs : FilterState) :
    (fs.moods = [] → applyFilter df fs = []) ∧
    (dateKey fs.stop < dateKey fs.start → applyFilter df fs = []) := by
  constructor
  · intro h
    unfold applyFilter
    simp only [h]
    simp
  · intro h
    unfold applyFilter
    have hmask : (df.filter fun o =>
        decide (dateKey fs.start ≤ dateKey o.date) &&
        decide (dateKey o.date ≤ dateKey fs.stop)) = [] := by
      rw [List.filter_eq_nil_iff]
      intro o _
      simp only [Bool.and_eq_true, decide_eq_true_eq, not_and]
      intro h1 h2
      omega
    rw [hmask]
    rfl

/-- Witness for C8: an empty mood set, and a reversed date range. -/
theorem applyFilter_degenerate_witness :
    applyFilter [⟨2000, 1, (1 : ℚ), (2000, 1, 1)⟩]
        ⟨(2000, 1, 1), (2020, 1, 1), []⟩ = [] ∧
    applyFilter [⟨2000, 1, (1 : ℚ), (2000, 1, 1)⟩]
        ⟨(2020, 1, 1), (2000, 1, 1), moodLabels⟩ = [] :=
  ⟨(applyFilter_degenerate _ _).1 rfl, (applyFilter_degenerate _ _).2 (by decide)⟩

/-- C10: the filtered view is a subsequence of the input (hence keeps
chronological order whenever the input is date-sorted) and contains exactly
the records whose date lies inclusively between start and end and whose
mood is selected. -/
theorem applyFilter_spec (df : List Obs) (fs : FilterState) :
    (applyFilter df fs).Sublist df ∧
    (df.Pairwise obsLE → (applyFilter df fs).Pairwise obsLE) ∧
    (∀ o, o ∈ applyFilter df fs ↔
      o ∈ df ∧ dateKey fs.start ≤ dateKey o.date ∧
        dateKey o.date ≤ dateKey fs.stop ∧ get_earth_mood o.anomaly ∈ fs.moods) := by
  have hsub : (applyFilter df fs).Sublist df :=
    (List.filter_sublist _).trans (List.filter_sublist _)
  refine ⟨hsub, fun hp => List.Pairwise.sublist hsub hp, fun o => ?_⟩
  unfold applyFilter
  simp only [List.mem_filter, Bool.and_eq_true, decide_eq_true_eq]
  tauto

/-- Witness for C10 on a one-record frame with an enclosing date range. -/
theorem applyFilter_spec_witness :
    (applyFilter [⟨2000, 1, (1 : ℚ), (2000, 1, 1)⟩]
        ⟨(1999, 1, 1), (2001, 1, 1), moodLabels⟩).Pairwise obsLE ∧
    (⟨2000, 1, (1 : ℚ), (2000, 1, 1)⟩ : Obs) ∈
      applyFilter [⟨2000, 1, (1 : ℚ), (2000, 1, 1)⟩]
        ⟨(1999, 1, 1), (2001, 1, 1), moodLabels⟩ := by
  have h := applyFilter_spec [⟨2000, 1, (1 : ℚ), (2000, 1, 1)⟩]
    ⟨(1999, 1, 1), (2001, 1, 1), moodLabels⟩
  exact ⟨h.2.1 (List.pairwise_singleton _ _),
    (h.2.2 _).mpr
      ⟨by simp, by decide, by decide, by norm_num [get_earth_mood, moodLabels]⟩⟩

/-- C7: on a dataset whose anomaly is the constant c, the linear prediction
at the year of any existing data point is exactly c. -/
theorem linear_prediction_const_dataset (df : List Obs) (c : ℚ) (y0 : Int)
    (hconst : ∀ o ∈ df, o.anomaly = c) (hmem : ∃ o ∈ df, o.year = y0) :
    linear_prediction df (y0 : ℚ) = c := by
  obtain ⟨o₀, ho₀, _⟩ := hmem
  have hn : df.length ≠ 0 := by
    intro h0
    rw [List.length_eq_zero] at h0
    rw [h0] at ho₀
    exact absurd ho₀ (List.not_mem_nil _)
  have hlen : (List.map (fun o : Obs => (o.year : ℚ)) df).length = df.length := by
    simp
  have hnq : ((List.map (fun o : Obs => (o.year : ℚ)) df).length : ℚ) ≠ 0 :=
    Nat.cast_ne_zero.mpr (by rw [hlen]; exact hn)
  have hY : ∀ i ∈ Finset.range (List.map (fun o : Obs => (o.year : ℚ)) df).length,
      (List.map (fun o : Obs => o.anomaly) df).getD i 0 = c := by
    intro i hi
    rw [Finset.mem_range, hlen] at hi
    rw [List.getD_eq_getElem _ _ (by simpa using hi)]
    rw [List.getElem_map]
    exact hconst _ (List.getElem_mem _)
  unfold linear_prediction polyfit1
  dsimp only
  set n := (List.map (fun o : Obs => (o.year : ℚ)) df).length with hns
  set X := fun i => (List.map (fun o : Obs => (o.year : ℚ)) df).getD i 0 with hXs
  set Y := fun i => (List.map (fun o : Obs => o.anomaly) df).getD i 0 with hYs
  have hYv : ∀ i ∈ Finset.range n, Y i = c := fun i hi => hY i hi
  have hSY : S n Y = (n : ℚ) * c := by
    rw [S_congr n Y (fun _ => c) hYv]
    unfold S
    simp [Finset.sum_const, Finset.card_range, nsmul_eq_mul]
  have hSXY : S n (fun i => X i * Y i) = S n X * c := by
    rw [S_congr n _ (fun i => X i * c)
      (fun i hi => by
        show X i * Y i = X i * c
        rw [hYv i hi])]
    unfold S
    rw [← Finset.sum_mul]
  have hnum : fitNum n X Y = 0 := by
    unfold fitNum
    rw [hSXY, hSY]
    ring
  have hslope : fitSlope n X Y = 0 := by
    unfold fitSlope
    rw [hnum]
    exact zero_div _
  have hicept : fitIcept n X Y = c := by
    unfold fitIcept
    rw [hslope, hSY, zero_mul, sub_zero]
    exact mul_div_cancel_left₀ c hnq
  rw [hslope, hicept]
  ring

/-- Witness for C7: two years of constant anomaly 2, predicted at year 2000. -/
theorem linear_prediction_const_dataset_witness :
    linear_prediction
      [⟨2000, 1, (2 : ℚ), (2000, 1, 1)⟩, ⟨2001, 1, (2 : ℚ), (2001, 1, 1)⟩]
      ((2000 : Int) : ℚ) = 2 :=
  linear_prediction_const_dataset _ 2 2000 (by decide) (by decide)

/-- Projecting the reshaped records to (year, month, anomaly) triples gives
exactly the non-missing canonical cells, in melt order. -/
theorem recordsOf_map_proj (t : RawTable) :
    List.map (fun o : Obs => (o.year, o.month, o.anomaly)) (recordsOf t) =
      tableTriples t := by
  unfold recordsOf tableTriples
  rw [List.map_flatMap]
  congr 1
  funext c
  rw [List.map_filterMap]
  congr 1
  funext r
  cases hc : r.cells c <;> cases hm : monthMap c <;> simp [hc, hm]

/-- The sorted reshape output is a permutation of the canonical cells. -/
theorem load_perm_triples (t : RawTable) :
    (List.map (fun o : Obs => (o.year, o.month, o.anomaly))
        (load_nasa_data t)).Perm (tableTriples t) := by
  have h := List.Perm.map (fun o : Obs => (o.year, o.month, o.anomaly))
    (List.perm_insertionSort obsLE (recordsOf t))
  rw [recordsOf_map_proj] at h
  exact h

/-- A month number produced by `monthMap` lies in 1..12. -/
theorem monthMap_bounds (c : String) (m : Int) (h : monthMap c = some m) :
    1 ≤ m ∧ m ≤ 12 := by
  unfold monthMap at h
  split at h <;>
    first
      | (injection h with h; omega)
      | exact Option.noConfusion h

/-- A column kept by `monthMap` is the canonical name of its month number. -/
theorem monthMap_name (c : String) (m : Int) (h : monthMap c = some m) :
    c = monthName m := by
  unfold monthMap at h
  split at h <;>
    first
      | (injection h with h; subst h; rfl)
      | exact Option.noConfusion h

/-- `monthMap` is injective where it is defined. -/
theorem monthMap_inj (c₁ c₂ : String) (m : Int)
    (h₁ : monthMap c₁ = some m) (h₂ : monthMap c₂ = some m) : c₁ = c₂ :=
  (monthMap_name c₁ m h₁).trans (monthMap_name c₂ m h₂).symm

/-- Every reshaped record stores the first day of its (year, month) as its
date and a canonical month number. -/
theorem mem_recordsOf (t : RawTable) (o : Obs) (ho : o ∈ recordsOf t) :
    o.date = (o.year, o.month, 1) ∧ 1 ≤ o.month ∧ o.month ≤ 12 := by
  unfold recordsOf at ho
  rw [List.mem_flatMap] at ho
  obtain ⟨c, _, ho⟩ := ho
  rw [List.mem_filterMap] at ho
  obtain ⟨r, _, hg⟩ := ho
  cases hcell : r.cells c <;> cases hm : monthMap c <;> rw [hcell, hm] at hg <;>
    simp at hg
  subst hg
  exact ⟨rfl, monthMap_bounds c _ hm⟩

/-- filterMap outputs keyed by distinct row years are distinct. -/
theorem nodup_filterMap_keys (rows : List RawRow) (g : RawRow → Option Int)
    (hinj : ∀ r r' k, g r = some k → g r' = some k → r.year = r'.year) :
    (List.map RawRow.year rows).Nodup → (rows.filterMap g).Nodup := by
  induction rows with
  | nil => intro _; simp
  | cons r rs ih =>
    intro hy
    rw [List.map_cons, List.nodup_cons] at hy
    obtain ⟨hr, hrs⟩ := hy
    rw [List.filterMap_cons]
    cases hg : g r with
    | none => exact ih hrs
    | some k =>
      rw [List.nodup_cons]
      refine ⟨?_, ih hrs⟩
      intro hmem
      obtain ⟨r', hr', hg'⟩ := List.mem_filterMap.mp hmem
      refine hr ?_
      rw [hinj r r' k hg hg']
      exact List.mem_map_of_mem RawRow.year hr'

/-- Under the table invariant (rows keyed by distinct years, no duplicate
columns), the reshaped records have pairwise distinct date keys. -/
theorem recordsOf_keys_nodup (t : RawTable)
    (hy : (List.map RawRow.year t.rows).Nodup) (hc : t.cols.Nodup) :
    (List.map (fun o : Obs => dateKey o.date) (recordsOf t)).Nodup := by
  unfold recordsOf
  rw [List.map_flatMap, List.nodup_flatMap]
  constructor
  · intro c _
    rw [List.map_filterMap]
    refine nodup_filterMap_keys t.rows _ ?_ hy
    intro r r' k h h'
    cases hm : monthMap c with
    | none =>
      rw [hm] at h
      cases hcell : r.cells c <;> rw [hcell] at h <;> simp at h
    | some m =>
      cases hcell : r.cells c with
      | none => rw [hcell, hm] at h; simp at h
      | some v =>
        cases hcell' : r'.cells c with
        | none => rw [hcell', hm] at h'; simp at h'
        | some v' =>
          rw [hcell, hm] at h
          rw [hcell', hm] at h'
          simp [dateKey] at h h'
          omega
  · refine hc.imp ?_
    intro c₁ c₂ hne k hk₁ hk₂
    dsimp only at hk₁ hk₂
    rw [List.map_filterMap, List.mem_filterMap] at hk₁ hk₂
    obtain ⟨r₁, _, h₁⟩ := hk₁
    obtain ⟨r₂, _, h₂⟩ := hk₂
    cases hm₁ : monthMap c₁ with
    | none =>
      rw [hm₁] at h₁
      cases hcell : r₁.cells c₁ <;> rw [hcell] at h₁ <;> simp at h₁
    | some m₁ =>
      cases hcell₁ : r₁.cells c₁ with
      | none => rw [hcell₁, hm₁] at h₁; simp at h₁
      | some v₁ =>
        rw [hcell₁, hm₁] at h₁
        simp [dateKey] at h₁
        cases hm₂ : monthMap c₂ with
        | none =>
          rw [hm₂] at h₂
          cases hcell : r₂.cells c₂ <;> rw [hcell] at h₂ <;> simp at h₂
        | some m₂ =>
          cases hcell₂ : r₂.cells c₂ with
          | none => rw [hcell₂, hm₂] at h₂; simp at h₂
          | some v₂ =>
            rw [hcell₂, hm₂] at h₂
            simp [dateKey] at h₂
            have b₁ := monthMap_bounds c₁ m₁ hm₁
            have b₂ := monthMap_bounds c₂ m₂ hm₂
            have hm12 : m₁ = m₂ := by omega
            subst hm12
            exact hne (monthMap_inj c₁ c₂ m₁ hm₁ hm₂)

/-- C3: on a table with exactly one non-missing cell per (year, month), the
reshape output projected back to (year, month, value) triples is a
permutation of the table's triples, and the (year, month) group keys stay
pairwise distinct — grouping the records reproduces the original table. -/
theorem roundtrip_groups (t : RawTable)
    (h : (List.map (fun p : Int × Int × ℚ => (p.1, p.2.1)) (tableTriples t)).Nodup) :
    (List.map (fun o : Obs => (o.year, o.month, o.anomaly))
        (load_nasa_data t)).Perm (tableTriples t) ∧
    (List.map (fun o : Obs => (o.year, o.month)) (load_nasa_data t)).Nodup := by
  refine ⟨load_perm_triples t, ?_⟩
  have hmm : List.map (fun o : Obs => (o.year, o.month)) (load_nasa_data t)
      = List.map (fun p : Int × Int × ℚ => (p.1, p.2.1))
          (List.map (fun o : Obs => (o.year, o.month, o.anomaly))
            (load_nasa_data t)) := by
    rw [List.map_map]
    rfl
  rw [hmm]
  exact ((load_perm_triples t).map _).nodup_iff.mpr h

/-- Witness for C3 on a 2-year, Jan-only table with a seasonal aggregate
column. -/
theorem roundtrip_groups_witness :
    (List.map (fun o : Obs => (o.year, o.month, o.anomaly))
        (load_nasa_data
          ⟨["Jan", "J-D"],
           [⟨2000, fun c => if c = "Jan" then some (1 : ℚ) else some 9⟩,
            ⟨2001, fun c => if c = "Jan" then some (2 : ℚ) else some 9⟩]⟩)).Perm
      (tableTriples
        ⟨["Jan", "J-D"],
         [⟨2000, fun c => if c = "Jan" then some (1 : ℚ) else some 9⟩,
          ⟨2001, fun c => if c = "Jan" then some (2 : ℚ) else some 9⟩]⟩) ∧
    (List.map (fun o : Obs => (o.year, o.month))
        (load_nasa_data
          ⟨["Jan", "J-D"],
           [⟨2000, fun c => if c = "Jan" then some (1 : ℚ) else some 9⟩,
            ⟨2001, fun c => if c = "Jan" then some (2 : ℚ) else some 9⟩]⟩)).Nodup :=
  roundtrip_groups _ (by decide)

/-- C4: under the table invariant (rows keyed by year, no duplicate
columns), the reshape yields exactly one record per non-missing cell of a
canonical month column (aggregate columns excluded), each record dated the
first day of its (year, month) with a month in 1..12, and the output is
strictly increasing in date — sorted ascending with no duplicate dates. -/
theorem load_nasa_data_spec (t : RawTable)
    (hy : (List.map RawRow.year t.rows).Nodup) (hc : t.cols.Nodup) :
    (List.map (fun o : Obs => (o.year, o.month, o.anomaly))
        (load_nasa_data t)).Perm (tableTriples t) ∧
    (∀ o ∈ load_nasa_data t,
      o.date = (o.year, o.month, 1) ∧ 1 ≤ o.month ∧ o.month ≤ 12) ∧
    (load_nasa_data t).Pairwise (fun a b => dateKey a.date < dateKey b.date) := by
  refine ⟨load_perm_triples t, ?_, ?_⟩
  · intro o ho
    exact mem_recordsOf t o
      (((List.perm_insertionSort obsLE (recordsOf t)).mem_iff).mp ho)
  · have hsorted : (load_nasa_data t).Pairwise obsLE :=
      List.sorted_insertionSort obsLE (recordsOf t)
    have hkeys : (List.map (fun o : Obs => dateKey o.date)
        (load_nasa_data t)).Nodup :=
      (List.Perm.map _ (List.perm_insertionSort obsLE (recordsOf t))).nodup_iff.mpr
        (recordsOf_keys_nodup t hy hc)
    have hne : (load_nasa_data t).Pairwise
        (fun a b => dateKey a.date ≠ dateKey b.date) :=
      List.pairwise_map.mp hkeys
    exact (hsorted.and hne).imp (fun h => lt_of_le_of_ne h.1 h.2)

/-- Witness for C4 on the same synthetic table. -/
theorem load_nasa_data_spec_witness :
    (∀ o ∈ load_nasa_data
        ⟨["Jan", "J-D"],
         [⟨2000, fun c => if c = "Jan" then some (1 : ℚ) else some 9⟩,
          ⟨2001, fun c => if c = "Jan" then some (2 : ℚ) else some 9⟩]⟩,
      o.date = (o.year, o.month, 1) ∧ 1 ≤ o.month ∧ o.month ≤ 12) ∧
    (load_nasa_data
        ⟨["Jan", "J-D"],
         [⟨2000, fun c => if c = "Jan" then some (1 : ℚ) else some 9⟩,
          ⟨2001, fun c => if c = "Jan" then some (2 : ℚ) else some 9⟩]⟩).Pairwise
      (fun a b => dateKey a.date < dateKey b.date) :=
  ⟨(load_nasa_data_spec _ (by decide) (by decide)).2.1,
   (load_nasa_data_spec _ (by decide) (by decide)).2.2⟩
